import Mathlib

/-!
Verification of the camera/view/input core of the Computer-Graphic-Project
repository (ViewManager.cpp, SceneManager.cpp), as a shallow embedding.

Floating-point values of the C++ source are modelled by exact rationals
(all literals in the source, such as 0.016f, 0.05f, 0.25f, are exactly
representable); real-valued trigonometric quantities (camera basis vectors,
projection matrices) are modelled over the reals.

The Camera class itself is not part of the repository's two source files;
its methods are modelled from the specification where a claim needs them,
and each such definition is marked `Modelled from the spec:`.
-/

namespace GraphicsProject

/-! ## Small vector algebra used by the embedding -/
structure Vec3 (α : Type) where
  x : α
  y : α
  z : α
  deriving DecidableEq, Repr

namespace Vec3

def add {α : Type} [Add α] (v w : Vec3 α) : Vec3 α :=
  ⟨v.x + w.x, v.y + w.y, v.z + w.z⟩

def sub {α : Type} [Sub α] (v w : Vec3 α) : Vec3 α :=
  ⟨v.x - w.x, v.y - w.y, v.z - w.z⟩

def smul {α : Type} [Mul α] (c : α) (v : Vec3 α) : Vec3 α :=
  ⟨c * v.x, c * v.y, c * v.z⟩

def dot {α : Type} [Mul α] [Add α] (v w : Vec3 α) : α :=
  v.x * w.x + v.y * w.y + v.z * w.z

def cross {α : Type} [Mul α] [Sub α] (v w : Vec3 α) : Vec3 α :=
  ⟨v.y * w.z - v.z * w.y, v.z * w.x - v.x * w.z, v.x * w.y - v.y * w.x⟩

/-- Cast a rational vector to a real vector. -/
def toR (v : Vec3 ℚ) : Vec3 ℝ :=
  ⟨(v.x : ℝ), (v.y : ℝ), (v.z : ℝ)⟩

/-- Euclidean normalization over the reals (glm::normalize). -/
noncomputable def normalize (v : Vec3 ℝ) : Vec3 ℝ :=
  smul (1 / Real.sqrt (dot v v)) v

end Vec3

/-! ## Key model

GLFW's `glfwGetKey` returns either GLFW_PRESS or GLFW_RELEASE for the keys
the source polls, so a frame's raw key state is a boolean per key. -/
inductive Key where
  | w | s | a | d | q | e
  | leftShift
  | z | x
  | k1 | k2 | k3 | k4
  | left | right | up | down | pageUp | pageDown
  | l | f | t
  | kpAdd | equal | kpSubtract | minus
  | semicolon | apostrophe
  | p | escape
  deriving DecidableEq, Repr

/-- A frame's raw key state: `true` means GLFW_PRESS, `false` GLFW_RELEASE. -/
def KeyState : Type := Key → Bool

/-! ## Edge detection: ViewManager::KeyPressedOnce

Source (ViewManager.cpp:232-242): given the key's current raw state and its
latch `m_keyOnce[key]`, fire iff pressed and not latched (setting the
latch); a release clears the latch.  Returns (fired, new latch). -/
def keyPressedOnce (pressed : Bool) (latch : Bool) : Bool × Bool :=
  if pressed && !latch then (true, true)
  else if !pressed then (false, false)
  else (false, latch)

/-- One `KeyPressedOnce` call on the per-key latch map `m_keyOnce`:
returns the fired flag and the updated map. -/
def keyPressedOnceMap (keys : KeyState) (once : Key → Bool) (k : Key) :
    Bool × (Key → Bool) :=
  let r := keyPressedOnce (keys k) (once k)
  (r.1, fun j => if j = k then r.2 else once j)

/-- The per-frame fired flags of `KeyPressedOnce` for one key over a
sequence of frames, starting from latch state `latch`. -/
def latchFires (latch : Bool) : List Bool → List Bool
  | [] => []
  | p :: ps => (keyPressedOnce p latch).1 :: latchFires (keyPressedOnce p latch).2 ps

/-- Number of rising edges (RELEASE→PRESS transitions, with `prev` the state
before the first frame) in a sequence of per-frame key states. -/
def risingEdgesAux (prev : Bool) : List Bool → Nat
  | [] => 0
  | p :: ps => (if p && !prev then 1 else 0) + risingEdgesAux p ps

/-- Rising edges assuming the key starts released. -/
def risingEdges (ps : List Bool) : Nat :=
  risingEdgesAux false ps

/-- The projection-toggle key handling of ProcessKeyboardEvents
(ViewManager.cpp:216-225), viewed at the level of the stream of per-frame
P-key states: if P reads PRESS, the toggle fires once and the busy-wait
`while (glfwGetKey(P) == GLFW_PRESS) glfwPollEvents();` consumes the stream
until a RELEASE is read.  Returns how many times the toggle fires. -/
def processPDrain : List Bool → Nat
  | [] => 0
  | false :: rest => processPDrain rest
  | true :: rest => 1 + processPDrain (rest.dropWhile (fun b => b))
  termination_by l => l.length
  decreasing_by
    · simp
    · have := (List.dropWhile_sublist (l := rest) (fun b => b)).length_le
      simp only [List.length_cons]
      omega

/-! ## The member camera (m_camera)

Modelled from the spec: the Camera class is not among the repository's two
source files.  Its movement mutators "translate position along basis
vectors scaled by `distance`" (spec 4.1); movement does not change the
orientation, so the basis vectors are carried unchanged. -/
structure CamQ where
  Position : Vec3 ℚ
  Front : Vec3 ℚ
  Up : Vec3 ℚ
  Right : Vec3 ℚ
  Zoom : ℚ
  MovementSpeed : ℚ
  deriving DecidableEq

namespace CamQ

/-- Modelled from the spec: `moveForward(distance)` translates the position
along the front basis vector. -/
def MoveForward (c : CamQ) (d : ℚ) : CamQ :=
  { c with Position := Vec3.add c.Position (Vec3.smul d c.Front) }

/-- Modelled from the spec: `moveBackward(distance)`. -/
def MoveBackward (c : CamQ) (d : ℚ) : CamQ :=
  { c with Position := Vec3.sub c.Position (Vec3.smul d c.Front) }

/-- Modelled from the spec: `moveLeft(distance)`. -/
def MoveLeft (c : CamQ) (d : ℚ) : CamQ :=
  { c with Position := Vec3.sub c.Position (Vec3.smul d c.Right) }

/-- Modelled from the spec: `moveRight(distance)`. -/
def MoveRight (c : CamQ) (d : ℚ) : CamQ :=
  { c with Position := Vec3.add c.Position (Vec3.smul d c.Right) }

/-- Modelled from the spec: `moveUp(distance)`. -/
def MoveUp (c : CamQ) (d : ℚ) : CamQ :=
  { c with Position := Vec3.add c.Position (Vec3.smul d c.Up) }

/-- Modelled from the spec: `moveDown(distance)`. -/
def MoveDown (c : CamQ) (d : ℚ) : CamQ :=
  { c with Position := Vec3.sub c.Position (Vec3.smul d c.Up) }

end CamQ

/-! ## ViewManager member state and HandleInteractiveShortcuts

State mutated by ViewManager::HandleInteractiveShortcuts
(ViewManager.cpp:304-357).  The light arrays have four entries (keys 1-4
select indices 0-3); they are modelled as total functions on ℕ so that the
in-range invariant is a proved property rather than a typing artifact. -/
structure VMState where
  camera : CamQ
  moveSpeedScale : ℚ
  selectedPointLight : ℕ
  pointLightPos : ℕ → Vec3 ℚ
  pointLightOn : ℕ → Bool
  pointIntensity : ℕ → ℚ
  dirLightOn : Bool
  flashlightOn : Bool
  ambientBoost : ℚ
  keyOnce : Key → Bool

/-- Speed-multiplier mutation (ViewManager.cpp:320-327): halving clamps
below at 0.25, doubling clamps above at 8.0. -/
inductive SpeedOp where
  | halve
  | double
  deriving DecidableEq

def applySpeedOp : SpeedOp → ℚ → ℚ
  | SpeedOp.halve, sc => max (1/4) (sc * (1/2))
  | SpeedOp.double, sc => min 8 (sc * 2)

def applySpeedOps (ops : List SpeedOp) (sc : ℚ) : ℚ :=
  ops.foldl (fun acc op => applySpeedOp op acc) sc

/-- The frame's held-key movement magnitude (ViewManager.cpp:306-309):
`speed = 3.0f * m_moveSpeedScale * 0.016f`, doubled while Left Shift is
held.  The time step is the hard-coded literal 0.016f, not the per-frame
recomputed delta-time. -/
def frameSpeed (keys : KeyState) (st : VMState) : ℚ :=
  let dt : ℚ := 16/1000
  let base : ℚ := 3
  let speed := base * st.moveSpeedScale * dt
  if keys Key.leftShift then speed * 2 else speed

/-- Camera block (ViewManager.cpp:312-317): W/S/A/D move, Q moves down,
E moves up, all by the frame speed. -/
def camStage (keys : KeyState) (speed : ℚ) (st : VMState) : VMState :=
  let c := st.camera
  let c := if keys Key.w then c.MoveForward speed else c
  let c := if keys Key.s then c.MoveBackward speed else c
  let c := if keys Key.a then c.MoveLeft speed else c
  let c := if keys Key.d then c.MoveRight speed else c
  let c := if keys Key.q then c.MoveDown speed else c
  let c := if keys Key.e then c.MoveUp speed else c
  { st with camera := c }

/-- Speed-scale block (ViewManager.cpp:320-327): edge-triggered Z halves,
X doubles, both clamped. -/
def speedStage (keys : KeyState) (st : VMState) : VMState :=
  let rz := keyPressedOnceMap keys st.keyOnce Key.z
  let st := { st with
    keyOnce := rz.2
    moveSpeedScale := if rz.1 then applySpeedOp SpeedOp.halve st.moveSpeedScale
                      else st.moveSpeedScale }
  let rx := keyPressedOnceMap keys st.keyOnce Key.x
  { st with
    keyOnce := rx.2
    moveSpeedScale := if rx.1 then applySpeedOp SpeedOp.double st.moveSpeedScale
                      else st.moveSpeedScale }

/-- Light-selection block (ViewManager.cpp:330-333): edge-triggered digit
keys 1-4 select point light 0-3. -/
def selectStage (keys : KeyState) (st : VMState) : VMState :=
  let r1 := keyPressedOnceMap keys st.keyOnce Key.k1
  let st := { st with
    keyOnce := r1.2
    selectedPointLight := if r1.1 then 0 else st.selectedPointLight }
  let r2 := keyPressedOnceMap keys st.keyOnce Key.k2
  let st := { st with
    keyOnce := r2.2
    selectedPointLight := if r2.1 then 1 else st.selectedPointLight }
  let r3 := keyPressedOnceMap keys st.keyOnce Key.k3
  let st := { st with
    keyOnce := r3.2
    selectedPointLight := if r3.1 then 2 else st.selectedPointLight }
  let r4 := keyPressedOnceMap keys st.keyOnce Key.k4
  { st with
    keyOnce := r4.2
    selectedPointLight := if r4.1 then 3 else st.selectedPointLight }

/-- Update one entry of a ℕ-indexed array. -/
def updAt {α : Type} (arr : ℕ → α) (i : ℕ) (v : α) : ℕ → α :=
  fun j => if j = i then v else arr j

/-- Light-position nudge block (ViewManager.cpp:335-340): held arrow keys
nudge the selected light's X/Z, Page keys its Y, by the frame speed. -/
def nudgeStage (keys : KeyState) (speed : ℚ) (st : VMState) : VMState :=
  let i := st.selectedPointLight
  let pos := st.pointLightPos
  let pos := if keys Key.left then updAt pos i { pos i with x := (pos i).x - speed } else pos
  let pos := if keys Key.right then updAt pos i { pos i with x := (pos i).x + speed } else pos
  let pos := if keys Key.up then updAt pos i { pos i with z := (pos i).z - speed } else pos
  let pos := if keys Key.down then updAt pos i { pos i with z := (pos i).z + speed } else pos
  let pos := if keys Key.pageUp then updAt pos i { pos i with y := (pos i).y + speed } else pos
  let pos := if keys Key.pageDown then updAt pos i { pos i with y := (pos i).y - speed } else pos
  { st with pointLightPos := pos }

/-- Toggle block (ViewManager.cpp:342-344): edge-triggered L flips the
directional light, F the flashlight, T the selected point light. -/
def toggleStage (keys : KeyState) (st : VMState) : VMState :=
  let rl := keyPressedOnceMap keys st.keyOnce Key.l
  let st := { st with
    keyOnce := rl.2
    dirLightOn := if rl.1 then !st.dirLightOn else st.dirLightOn }
  let rf := keyPressedOnceMap keys st.keyOnce Key.f
  let st := { st with
    keyOnce := rf.2
    flashlightOn := if rf.1 then !st.flashlightOn else st.flashlightOn }
  let rt := keyPressedOnceMap keys st.keyOnce Key.t
  { st with
    keyOnce := rt.2
    pointLightOn := if rt.1
      then updAt st.pointLightOn st.selectedPointLight (!st.pointLightOn st.selectedPointLight)
      else st.pointLightOn }

/-- Intensity block (ViewManager.cpp:346-351): `glfwGetKey(KP_ADD) ||
KeyPressedOnce(EQUAL)` — the short-circuit skips the latch update when the
numpad key is held — increments the selected intensity clamped at 3.0;
the subtract pair decrements clamped at 0.0. -/
def intensityStage (keys : KeyState) (st : VMState) : VMState :=
  let i := st.selectedPointLight
  let rAdd : Bool × (Key → Bool) :=
    if keys Key.kpAdd then (true, st.keyOnce)
    else keyPressedOnceMap keys st.keyOnce Key.equal
  let st := { st with
    keyOnce := rAdd.2
    pointIntensity := if rAdd.1
      then updAt st.pointIntensity i (min 3 (st.pointIntensity i + 5/100))
      else st.pointIntensity }
  let rSub : Bool × (Key → Bool) :=
    if keys Key.kpSubtract then (true, st.keyOnce)
    else keyPressedOnceMap keys st.keyOnce Key.minus
  { st with
    keyOnce := rSub.2
    pointIntensity := if rSub.1
      then updAt st.pointIntensity i (max 0 (st.pointIntensity i - 5/100))
      else st.pointIntensity }

/-- Ambient-boost block (ViewManager.cpp:353-354): held semicolon
decrements, apostrophe increments, by the fixed step 0.001, clamped to
[0, 0.3]. -/
def ambientStage (keys : KeyState) (st : VMState) : VMState :=
  let st := if keys Key.semicolon
    then { st with ambientBoost := max 0 (st.ambientBoost - 1/1000) } else st
  if keys Key.apostrophe
    then { st with ambientBoost := min (3/10) (st.ambientBoost + 1/1000) } else st

/-- ViewManager::HandleInteractiveShortcuts (ViewManager.cpp:304-357): the
frame speed is computed once at the top (from the pre-frame multiplier),
then the blocks run in source order.  The trailing
`UploadInteractiveUniforms()` call targets the external shader collaborator
and mutates none of this state. -/
def handleInteractiveShortcuts (keys : KeyState) (st : VMState) : VMState :=
  let speed := frameSpeed keys st
  ambientStage keys
    (intensityStage keys
      (toggleStage keys
        (nudgeStage keys speed
          (selectStage keys
            (speedStage keys
              (camStage keys speed st))))))

/-- The light-parameter clamp invariant of the claim: all four intensities
in [0, 3], ambient boost in [0, 0.3], selected index in {0, 1, 2, 3}. -/
def LightInv (st : VMState) : Prop :=
  (∀ i : Fin 4, 0 ≤ st.pointIntensity i ∧ st.pointIntensity i ≤ 3)
  ∧ (0 ≤ st.ambientBoost ∧ st.ambientBoost ≤ 3/10)
  ∧ st.selectedPointLight ≤ 3

instance (st : VMState) : Decidable (LightInv st) := by
  unfold LightInv
  infer_instance

/-! ## File-scope globals of ViewManager.cpp (anonymous namespace) and the
global camera g_pCamera -/
structure Globals where
  camera : CamQ
  gDeltaTime : ℚ
  gLastFrame : ℚ
  bOrthographicProjection : Bool
  shouldClose : Bool
  deriving DecidableEq

/-- Modelled from the spec: Camera::ProcessKeyboard (the Camera class is
not under src/) — a held movement key translates the position along the
matching basis vector by `MovementSpeed * deltaTime` (continuous movement
scaled by the per-frame delta-time). -/
inductive CamDir where
  | forward | backward | leftD | rightD | upD | downD

def CamQ.ProcessKeyboard (c : CamQ) (dir : CamDir) (deltaTime : ℚ) : CamQ :=
  let velocity := c.MovementSpeed * deltaTime
  match dir with
  | CamDir.forward => { c with Position := Vec3.add c.Position (Vec3.smul velocity c.Front) }
  | CamDir.backward => { c with Position := Vec3.sub c.Position (Vec3.smul velocity c.Front) }
  | CamDir.leftD => { c with Position := Vec3.sub c.Position (Vec3.smul velocity c.Right) }
  | CamDir.rightD => { c with Position := Vec3.add c.Position (Vec3.smul velocity c.Right) }
  | CamDir.upD => { c with Position := Vec3.add c.Position (Vec3.smul velocity c.Up) }
  | CamDir.downD => { c with Position := Vec3.sub c.Position (Vec3.smul velocity c.Up) }

/-- ViewManager::ProcessKeyboardEvents (ViewManager.cpp:178-227) for one
frame: Escape requests window close; held W/S/A/D move, held Q moves up and
E moves down (this handler's directions, lines 206-214), each scaled by the
recomputed `gDeltaTime`; a pressed P flips the projection flag once (its
busy-wait drain, modelled on streams by `processPDrain`, keeps it from
re-firing while held). -/
def processKeyboardEvents (keys : KeyState) (g : Globals) : Globals :=
  let g := if keys Key.escape then { g with shouldClose := true } else g
  let g := if keys Key.w
    then { g with camera := g.camera.ProcessKeyboard CamDir.forward g.gDeltaTime } else g
  let g := if keys Key.s
    then { g with camera := g.camera.ProcessKeyboard CamDir.backward g.gDeltaTime } else g
  let g := if keys Key.a
    then { g with camera := g.camera.ProcessKeyboard CamDir.leftD g.gDeltaTime } else g
  let g := if keys Key.d
    then { g with camera := g.camera.ProcessKeyboard CamDir.rightD g.gDeltaTime } else g
  let g := if keys Key.q
    then { g with camera := g.camera.ProcessKeyboard CamDir.upD g.gDeltaTime } else g
  let g := if keys Key.e
    then { g with camera := g.camera.ProcessKeyboard CamDir.downD g.gDeltaTime } else g
  if keys Key.p
    then { g with bOrthographicProjection := !g.bOrthographicProjection } else g

/-- ViewManager::Scroll_Callback (ViewManager.cpp:161-171): subtract the
scroll y offset from the camera Zoom, then clamp into [1, 90]. -/
def scrollCallback (_xOffset yOffset : ℚ) (c : CamQ) : CamQ :=
  let z := c.Zoom - yOffset
  let z := if z < 1 then 1 else z
  let z := if z > 90 then 90 else z
  { c with Zoom := z }

/-- A sequence of scroll events applied in order. -/
def applyScrolls (events : List (ℚ × ℚ)) (c : CamQ) : CamQ :=
  events.foldl (fun cam ev => scrollCallback ev.1 ev.2 cam) c

/-- The camera constructed in the ViewManager constructor
(ViewManager.cpp:57-63); `Right` is the Camera-class default basis
(modelled from the spec, the class is not under src/). -/
def cameraInit : CamQ :=
  { Position := ⟨0, 5, 12⟩
    Front := ⟨0, -1/2, -2⟩
    Up := ⟨0, 1, 0⟩
    Right := ⟨1, 0, 0⟩
    Zoom := 80
    MovementSpeed := 20 }

/-- The file-scope globals at startup (ViewManager.cpp:30-43): zero timing,
perspective projection. -/
def globalsInit : Globals :=
  { camera := cameraInit
    gDeltaTime := 0
    gLastFrame := 0
    bOrthographicProjection := false
    shouldClose := false }

/-! ## Mouse-look: Mouse_Position_Callback and the camera orientation

The camera's orientation is its yaw/pitch pair; the front/right/up basis is
recomputed from yaw/pitch on every orientation change (spec data model), so
the basis is exposed below as functions of the orientation. -/
structure CameraRot where
  yaw : ℚ
  pitch : ℚ
  deriving DecidableEq

/-- Modelled from the spec: the fixed mouse-sensitivity constant the look
offsets are scaled by (standard value 0.1). -/
def mouseSensitivity : ℚ := 1/10

/-- Modelled from the spec: Camera::ProcessMouseMovement — scale both
offsets by the sensitivity, add to yaw/pitch, clamp the pitch at ±89° so
the up vector cannot invert (the basis is then recomputed from the result,
see `frontVec`, `rightVec`, `upVec`). -/
def processMouseMovement (r : CameraRot) (xOffset yOffset : ℚ) : CameraRot :=
  let yaw := r.yaw + xOffset * mouseSensitivity
  let pitch := r.pitch + yOffset * mouseSensitivity
  let pitch := if pitch > 89 then 89 else pitch
  let pitch := if pitch < -89 then -89 else pitch
  { yaw := yaw, pitch := pitch }

/-- A sequence of look-delta events applied in order. -/
def applyLookDeltas (events : List (ℚ × ℚ)) (r : CameraRot) : CameraRot :=
  events.foldl (fun rot ev => processMouseMovement rot ev.1 ev.2) r

/-- The mouse-callback globals: gFirstMouse, gLastX, gLastY
(ViewManager.cpp:33-35) together with the camera orientation the callback
mutates. -/
structure MouseGlobals where
  firstMouse : Bool
  lastX : ℚ
  lastY : ℚ
  rot : CameraRot
  deriving DecidableEq

/-- ViewManager::Mouse_Position_Callback (ViewManager.cpp:137-159): on the
first event the stored last position is initialized to the event
coordinates before the offsets are computed; the offsets are
`x - gLastX` and `gLastY - y` (y reversed); the last position is then
updated and the offsets passed to the camera. -/
def mousePositionCallback (xMousePos yMousePos : ℚ) (m : MouseGlobals) : MouseGlobals :=
  let lastX := if m.firstMouse then xMousePos else m.lastX
  let lastY := if m.firstMouse then yMousePos else m.lastY
  let xOffset := xMousePos - lastX
  let yOffset := lastY - yMousePos
  { firstMouse := false
    lastX := xMousePos
    lastY := yMousePos
    rot := processMouseMovement m.rot xOffset yOffset }

/-! ### The basis vectors derived from yaw/pitch (over ℝ)

Modelled from the spec: standard spherical-to-Cartesian conversion followed
by re-normalization; right is the normalized cross product of front with
the world up, and up the normalized cross product of right with front. -/
noncomputable def radiansR (deg : ℝ) : ℝ := deg * Real.pi / 180

def worldUpVec : Vec3 ℝ := ⟨0, 1, 0⟩

noncomputable def frontVec (r : CameraRot) : Vec3 ℝ :=
  Vec3.normalize
    ⟨Real.cos (radiansR (r.yaw : ℝ)) * Real.cos (radiansR (r.pitch : ℝ)),
     Real.sin (radiansR (r.pitch : ℝ)),
     Real.sin (radiansR (r.yaw : ℝ)) * Real.cos (radiansR (r.pitch : ℝ))⟩

noncomputable def rightVec (r : CameraRot) : Vec3 ℝ :=
  Vec3.normalize (Vec3.cross (frontVec r) worldUpVec)

noncomputable def upVec (r : CameraRot) : Vec3 ℝ :=
  Vec3.normalize (Vec3.cross (rightVec r) (frontVec r))

/-- Mutually orthogonal unit vectors. -/
def OrthonormalBasis (f r u : Vec3 ℝ) : Prop :=
  Vec3.dot f f = 1 ∧ Vec3.dot r r = 1 ∧ Vec3.dot u u = 1
  ∧ Vec3.dot f r = 0 ∧ Vec3.dot f u = 0 ∧ Vec3.dot r u = 0

/-! ## Matrices and the per-frame view composition

A 4x4 matrix in glm's column-major convention: `M c r` is column `c`,
row `r`. -/
def Mat4 : Type := Fin 4 → Fin 4 → ℝ

/-- Matrix product in glm's column-major convention. -/
noncomputable def matMul (A B : Mat4) : Mat4 :=
  fun c r => ∑ k : Fin 4, A k r * B c k

/-- glm::perspective (right-handed, depth -1..1): the only nonzero entries
are [0][0] = 1/(aspect·tan(fovy/2)), [1][1] = 1/tan(fovy/2),
[2][2] = -(far+near)/(far-near), [2][3] = -1 (the perspective divide term)
and [3][2] = -2·far·near/(far-near). -/
noncomputable def glmPerspective (fovy aspect zNear zFar : ℝ) : Mat4 :=
  let tanHalfFovy := Real.tan (fovy / 2)
  fun c r =>
    if c = 0 ∧ r = 0 then 1 / (aspect * tanHalfFovy)
    else if c = 1 ∧ r = 1 then 1 / tanHalfFovy
    else if c = 2 ∧ r = 2 then -(zFar + zNear) / (zFar - zNear)
    else if c = 2 ∧ r = 3 then -1
    else if c = 3 ∧ r = 2 then -(2 * zFar * zNear) / (zFar - zNear)
    else 0

/-- glm::ortho (right-handed, depth -1..1): a pure scale/translate matrix,
with [3][3] = 1 and no perspective divide term ([2][3] = 0). -/
noncomputable def glmOrtho (left right bottom top zNear zFar : ℝ) : Mat4 :=
  fun c r =>
    if c = 0 ∧ r = 0 then 2 / (right - left)
    else if c = 1 ∧ r = 1 then 2 / (top - bottom)
    else if c = 2 ∧ r = 2 then -2 / (zFar - zNear)
    else if c = 3 ∧ r = 0 then -(right + left) / (right - left)
    else if c = 3 ∧ r = 1 then -(top + bottom) / (top - bottom)
    else if c = 3 ∧ r = 2 then -(zFar + zNear) / (zFar - zNear)
    else if c = 3 ∧ r = 3 then 1
    else 0

/-- glm::lookAt (right-handed), used by Camera::GetViewMatrix: the view
transform built from position, position+front and up. -/
noncomputable def glmLookAt (eye center up : Vec3 ℝ) : Mat4 :=
  let f := Vec3.normalize (Vec3.sub center eye)
  let s := Vec3.normalize (Vec3.cross f up)
  let u := Vec3.cross s f
  fun c r =>
    if c = 0 ∧ r = 0 then s.x
    else if c = 1 ∧ r = 0 then s.y
    else if c = 2 ∧ r = 0 then s.z
    else if c = 0 ∧ r = 1 then u.x
    else if c = 1 ∧ r = 1 then u.y
    else if c = 2 ∧ r = 1 then u.z
    else if c = 0 ∧ r = 2 then -f.x
    else if c = 1 ∧ r = 2 then -f.y
    else if c = 2 ∧ r = 2 then -f.z
    else if c = 3 ∧ r = 0 then -(Vec3.dot s eye)
    else if c = 3 ∧ r = 1 then -(Vec3.dot u eye)
    else if c = 3 ∧ r = 2 then Vec3.dot f eye
    else if c = 3 ∧ r = 3 then 1
    else 0

/-- glm::scale. -/
noncomputable def glmScale (v : Vec3 ℝ) : Mat4 :=
  fun c r =>
    if c = 0 ∧ r = 0 then v.x
    else if c = 1 ∧ r = 1 then v.y
    else if c = 2 ∧ r = 2 then v.z
    else if c = 3 ∧ r = 3 then 1
    else 0

/-- glm::translate. -/
noncomputable def glmTranslate (v : Vec3 ℝ) : Mat4 :=
  fun c r =>
    if c = 3 ∧ r = 0 then v.x
    else if c = 3 ∧ r = 1 then v.y
    else if c = 3 ∧ r = 2 then v.z
    else if (c : ℕ) = (r : ℕ) then 1
    else 0

/-- glm::rotate about an axis (normalized first), by Rodrigues' formula. -/
noncomputable def glmRotate (angle : ℝ) (axisIn : Vec3 ℝ) : Mat4 :=
  let c := Real.cos angle
  let s := Real.sin angle
  let ax := Vec3.normalize axisIn
  let t : Vec3 ℝ := Vec3.smul (1 - c) ax
  fun col r =>
    if col = 0 ∧ r = 0 then c + t.x * ax.x
    else if col = 0 ∧ r = 1 then t.x * ax.y + s * ax.z
    else if col = 0 ∧ r = 2 then t.x * ax.z - s * ax.y
    else if col = 1 ∧ r = 0 then t.y * ax.x - s * ax.z
    else if col = 1 ∧ r = 1 then c + t.y * ax.y
    else if col = 1 ∧ r = 2 then t.y * ax.z + s * ax.x
    else if col = 2 ∧ r = 0 then t.z * ax.x + s * ax.y
    else if col = 2 ∧ r = 1 then t.z * ax.y - s * ax.x
    else if col = 2 ∧ r = 2 then c + t.z * ax.z
    else if col = 3 ∧ r = 3 then 1
    else 0

/-- Values the core pushes to the shader interface. -/
inductive UniformValue where
  | mat4 (m : Mat4)
  | vec3 (v : Vec3 ℝ)

/-- A named uniform upload. -/
def Upload : Type := String × UniformValue

/-- The per-frame timing update at the top of PrepareSceneView
(ViewManager.cpp:265-267): the delta-time is recomputed from the wall-clock
timestamp `now` and the last-frame timestamp. -/
def updateTiming (now : ℚ) (g : Globals) : Globals :=
  { g with gDeltaTime := now - g.gLastFrame, gLastFrame := now }

/-- The result of one PrepareSceneView frame: the updated globals, the two
matrices the frame computes, and the uniform uploads it performs. -/
structure FrameOut where
  globals : Globals
  view : Mat4
  projection : Mat4
  uploads : List Upload

/-- ViewManager::PrepareSceneView (ViewManager.cpp:259-302): recompute the
per-frame timing, process keyboard events, build the view matrix from the
camera, branch on the projection flag to build either the orthographic
matrix (half-extent 5 scaled by the 1000/800 window aspect ratio) or the
perspective matrix (field of view from the camera Zoom in degrees, same
aspect ratio, near 0.1, far 100), and, only if the shader manager is
non-null, upload the view matrix, the projection matrix and the camera
position. -/
noncomputable def prepareSceneView (hasShaderManager : Bool) (now : ℚ)
    (keys : KeyState) (g : Globals) : FrameOut :=
  let g1 := updateTiming now g
  let g2 := processKeyboardEvents keys g1
  let camPos := Vec3.toR g2.camera.Position
  let view := glmLookAt camPos (Vec3.add camPos (Vec3.toR g2.camera.Front))
    (Vec3.toR g2.camera.Up)
  let orthoSize : ℝ := 5
  let aspectRatio : ℝ := 1000 / 800
  let projection :=
    if g2.bOrthographicProjection
    then glmOrtho (-orthoSize * aspectRatio) (orthoSize * aspectRatio)
      (-orthoSize) orthoSize (1/10) 100
    else glmPerspective (radiansR (g2.camera.Zoom : ℝ)) (1000 / 800) (1/10) 100
  let uploads : List Upload :=
    if hasShaderManager
    then [("view", UniformValue.mat4 view),
          ("projection", UniformValue.mat4 projection),
          ("viewPosition", UniformValue.vec3 camPos)]
    else []
  { globals := g2, view := view, projection := projection, uploads := uploads }

/-- SceneManager::SetTransformations (SceneManager.cpp:236-266): build the
model matrix translation * rotZ * rotY * rotX * scale and upload it as
"model" only if the shader manager is non-null. -/
noncomputable def setTransformations (hasShaderManager : Bool)
    (scaleXYZ : Vec3 ℝ) (XrotationDegrees YrotationDegrees ZrotationDegrees : ℝ)
    (positionXYZ : Vec3 ℝ) : List Upload :=
  let scale := glmScale scaleXYZ
  let rotationX := glmRotate (radiansR XrotationDegrees) ⟨1, 0, 0⟩
  let rotationY := glmRotate (radiansR YrotationDegrees) ⟨0, 1, 0⟩
  let rotationZ := glmRotate (radiansR ZrotationDegrees) ⟨0, 0, 1⟩
  let translation := glmTranslate positionXYZ
  let modelView :=
    matMul translation (matMul rotationZ (matMul rotationY (matMul rotationX scale)))
  if hasShaderManager then [("model", UniformValue.mat4 modelView)] else []

/-- A concrete in-range member state used to witness the clamp theorems. -/
def vmSample : VMState :=
  { camera := cameraInit
    moveSpeedScale := 1
    selectedPointLight := 0
    pointLightPos := fun _ => ⟨0, 0, 0⟩
    pointLightOn := fun _ => true
    pointIntensity := fun _ => 1
    dirLightOn := true
    flashlightOn := false
    ambientBoost := 0
    keyOnce := fun _ => false }

/-! ## The select-then-toggle scenario (C8) -/
/-- A frame in which only the digit key 3 reads PRESSED. -/
def keysSelect3 : KeyState := fun k =>
  match k with
  | Key.k3 => true
  | _ => false

/-- A frame in which only the T key reads PRESSED. -/
def keysToggleT : KeyState := fun k =>
  match k with
  | Key.t => true
  | _ => false

/-! ## Held-key effect magnitudes (C2) -/
/-- A frame holding W, and Left Shift when `sh` is true. -/
def keysWShift (sh : Bool) : KeyState := fun k =>
  match k with
  | Key.w => true
  | Key.leftShift => sh
  | _ => false

/-- A frame holding exactly one key `k`, and Left Shift when `sh` is
true. -/
def keysHold (k : Key) (sh : Bool) : KeyState := fun j =>
  if j = k then true
  else if j = Key.leftShift then sh
  else false

/-- The per-frame held-key step magnitude of HandleInteractiveShortcuts:
base 3.0 times the speed multiplier times the fixed 0.016 s step, doubled
while Left Shift is held. -/
def heldStep (st : VMState) (sh : Bool) : ℚ :=
  3 * st.moveSpeedScale * (16/1000) * (if sh then 2 else 1)

/-- A member state with the camera at the origin looking down -z, used as
the concrete input of the C2 counterexample. -/
def vmSampleCam : VMState :=
  { vmSample with camera :=
      { Position := ⟨0, 0, 0⟩
        Front := ⟨0, 0, -1⟩
        Up := ⟨0, 1, 0⟩
        Right := ⟨1, 0, 0⟩
        Zoom := 80
        MovementSpeed := 20 } }

/-! ## Projection-mode branching (C5) -/
/-- A frame in which only P reads PRESSED. -/
def keysPOnly : KeyState := fun k =>
  match k with
  | Key.p => true
  | _ => false

/-- Concrete mouse states for the C10 witness. -/
def mouseSampleFirst : MouseGlobals :=
  { firstMouse := true, lastX := 500, lastY := 400, rot := { yaw := -90, pitch := 0 } }

def mouseSampleLater : MouseGlobals :=
  { firstMouse := false, lastX := 500, lastY := 400, rot := { yaw := -90, pitch := 0 } }

/-- The unnormalized spherical-to-Cartesian front vector. -/
noncomputable def front0 (r : CameraRot) : Vec3 ℝ :=
  ⟨Real.cos (radiansR (r.yaw : ℝ)) * Real.cos (radiansR (r.pitch : ℝ)),
   Real.sin (radiansR (r.pitch : ℝ)),
   Real.sin (radiansR (r.yaw : ℝ)) * Real.cos (radiansR (r.pitch : ℝ))⟩

/-! ### Facts about the latch state machine -/
theorem keyPressedOnce_eq (pr latch : Bool) :
    keyPressedOnce pr latch = (pr && !latch, pr) := by
  cases pr <;> cases latch <;> rfl

theorem latchFires_cons (b pr : Bool) (ps : List Bool) :
    latchFires b (pr :: ps) = (pr && !b) :: latchFires pr ps := by
  simp [latchFires, keyPressedOnce_eq]

theorem latchFires_getD_zero (b : Bool) (ps : List Bool) :
    (latchFires b ps).getD 0 false = (ps.getD 0 false && !b) := by
  cases ps with
  | nil => simp [latchFires]
  | cons pr ps => simp [latchFires_cons]

theorem latchFires_getD_succ (ps : List Bool) :
    ∀ (b : Bool) (i : ℕ),
      (latchFires b ps).getD (i + 1) false
        = (ps.getD (i + 1) false && !(ps.getD i false)) := by
  induction ps with
  | nil => intro b i; simp [latchFires]
  | cons pr ps ih =>
    intro b i
    rw [latchFires_cons]
    cases i with
    | zero =>
      simp only [List.getD_cons_succ, List.getD_cons_zero]
      exact latchFires_getD_zero pr ps
    | succ i =>
      simp only [List.getD_cons_succ]
      exact ih pr i

theorem latchFires_count (ps : List Bool) :
    ∀ b : Bool, (latchFires b ps).count true = risingEdgesAux b ps := by
  induction ps with
  | nil => intro b; simp [latchFires, risingEdgesAux]
  | cons pr ps ih =>
    intro b
    rw [latchFires_cons]
    simp only [List.count_cons, risingEdgesAux, ih pr]
    cases pr <;> cases b <;> simp [Nat.add_comm]

theorem risingEdgesAux_dropWhile (ps : List Bool) :
    risingEdgesAux true ps = risingEdgesAux false (ps.dropWhile (fun b => b)) := by
  induction ps with
  | nil => simp [risingEdgesAux, List.dropWhile]
  | cons pr ps ih =>
    cases pr with
    | true => simpa [risingEdgesAux, List.dropWhile] using ih
    | false => simp [risingEdgesAux, List.dropWhile]

theorem processPDrain_eq_risingEdges (ps : List Bool) :
    processPDrain ps = risingEdges ps := by
  have H : ∀ n (l : List Bool), l.length ≤ n → processPDrain l = risingEdges l := by
    intro n
    induction n with
    | zero =>
      intro l hl
      have : l = [] := List.eq_nil_of_length_eq_zero (Nat.le_zero.mp hl)
      subst this
      simp [processPDrain, risingEdges, risingEdgesAux]
    | succ n ih =>
      intro l hl
      cases l with
      | nil => simp [processPDrain, risingEdges, risingEdgesAux]
      | cons pr rest =>
        cases pr with
        | false =>
          have h1 : processPDrain (false :: rest) = processPDrain rest := by
            simp [processPDrain]
          rw [h1, ih rest (by simp only [List.length_cons] at hl; omega)]
          simp [risingEdges, risingEdgesAux]
        | true =>
          have h1 : processPDrain (true :: rest)
              = 1 + processPDrain (rest.dropWhile (fun b => b)) := by
            simp [processPDrain]
          have hlen : (rest.dropWhile (fun b => b)).length ≤ n := by
            have := (List.dropWhile_sublist (l := rest) (fun b => b)).length_le
            simp only [List.length_cons] at hl
            omega
          rw [h1, ih _ hlen]
          simp [risingEdges, risingEdgesAux, risingEdgesAux_dropWhile]

  exact H ps.length ps (Nat.le_refl _)

/-- C1: Every edge-triggered action (digit-key light selection, L/F/T
toggles, Z/X speed changes, and the P projection toggle) fires exactly once
per physical press.  For the `KeyPressedOnce` latch (initial latch clear):
the action fires on a frame iff the key reads PRESSED on that frame and
either it is the first frame or the key read RELEASE on the previous frame
— so a press held over consecutive frames fires only on its first frame,
and a release followed by a new press fires again; the total number of
firings equals the number of RELEASE→PRESS edges.  The P projection toggle,
whose busy-wait drain loop consumes the key-state stream until release,
also fires exactly once per RELEASE→PRESS edge. -/
theorem edge_triggered_once_per_press (ps : List Bool) :
    ((latchFires false ps).getD 0 false = ps.getD 0 false)
    ∧ (∀ i : ℕ, (latchFires false ps).getD (i + 1) false
        = (ps.getD (i + 1) false && !(ps.getD i false)))
    ∧ ((latchFires false ps).count true = risingEdges ps)
    ∧ (processPDrain ps = risingEdges ps) := by
  refine ⟨?_, ?_, ?_, ?_⟩
  · rw [latchFires_getD_zero]; cases ps.getD 0 false <;> rfl
  · intro i; exact latchFires_getD_succ ps false i
  · exact latchFires_count ps false
  · exact processPDrain_eq_risingEdges ps

/-! ## Clamp preservation through HandleInteractiveShortcuts -/
theorem updAt_min_range (arr : ℕ → ℚ) (sel : ℕ) (hs : sel ≤ 3)
    (h : ∀ i : Fin 4, 0 ≤ arr i ∧ arr i ≤ 3) :
    ∀ i : Fin 4, 0 ≤ updAt arr sel (min 3 (arr sel + 5/100)) i
      ∧ updAt arr sel (min 3 (arr sel + 5/100)) i ≤ 3 := by
  have hb : 0 ≤ arr sel ∧ arr sel ≤ 3 := h ⟨sel, by omega⟩
  intro i
  simp only [updAt]
  split_ifs with hi
  · exact ⟨le_min (by norm_num) (by linarith [hb.1]), min_le_left _ _⟩
  · exact h i

theorem updAt_max_range (arr : ℕ → ℚ) (sel : ℕ) (hs : sel ≤ 3)
    (h : ∀ i : Fin 4, 0 ≤ arr i ∧ arr i ≤ 3) :
    ∀ i : Fin 4, 0 ≤ updAt arr sel (max 0 (arr sel - 5/100)) i
      ∧ updAt arr sel (max 0 (arr sel - 5/100)) i ≤ 3 := by
  have hb : 0 ≤ arr sel ∧ arr sel ≤ 3 := h ⟨sel, by omega⟩
  intro i
  simp only [updAt]
  split_ifs with hi
  · exact ⟨le_max_left _ _, max_le (by norm_num) (by linarith [hb.2])⟩
  · exact h i

theorem lightInv_camStage (keys : KeyState) (speed : ℚ) (st : VMState)
    (h : LightInv st) : LightInv (camStage keys speed st) :=
  h

theorem lightInv_speedStage (keys : KeyState) (st : VMState)
    (h : LightInv st) : LightInv (speedStage keys st) :=
  h

theorem lightInv_selectStage (keys : KeyState) (st : VMState)
    (h : LightInv st) : LightInv (selectStage keys st) := by
  obtain ⟨h1, h2, h3⟩ := h
  refine ⟨h1, h2, ?_⟩
  simp only [selectStage]
  split_ifs <;> omega

theorem lightInv_nudgeStage (keys : KeyState) (speed : ℚ) (st : VMState)
    (h : LightInv st) : LightInv (nudgeStage keys speed st) :=
  h

theorem lightInv_toggleStage (keys : KeyState) (st : VMState)
    (h : LightInv st) : LightInv (toggleStage keys st) :=
  h

theorem lightInv_intensityStage (keys : KeyState) (st : VMState)
    (h : LightInv st) : LightInv (intensityStage keys st) := by
  obtain ⟨h1, h2, h3⟩ := h
  refine ⟨?_, h2, h3⟩
  simp only [intensityStage]
  intro i
  repeat' split
  all_goals
    first
      | exact h1 i
      | exact updAt_min_range _ _ h3 h1 i
      | exact updAt_max_range _ _ h3 h1 i
      | exact updAt_max_range _ _ h3 (updAt_min_range _ _ h3 h1) i

set_option maxHeartbeats 1000000 in
theorem lightInv_ambientStage (keys : KeyState) (st : VMState)
    (h : LightInv st) : LightInv (ambientStage keys st) := by
  obtain ⟨h1, h2, h3⟩ := h
  simp only [ambientStage]
  split_ifs
  · exact ⟨h1, ⟨le_min (by norm_num) (by positivity), min_le_left _ _⟩, h3⟩
  · exact ⟨h1, ⟨le_min (by norm_num) (by linarith [h2.1]), min_le_left _ _⟩, h3⟩
  · exact ⟨h1, ⟨le_max_left _ _, max_le (by norm_num) (by linarith [h2.2])⟩, h3⟩
  · exact ⟨h1, h2, h3⟩

/-- C3: After every input-handling step, the light-parameter state keeps
its clamps: every point-light intensity stays in [0, 3], the ambient boost
in [0, 0.3], and the selected-light index in {0, 1, 2, 3} — every mutation
HandleInteractiveShortcuts can perform preserves all three. -/
theorem light_clamps_preserved (keys : KeyState) (st : VMState)
    (h : LightInv st) : LightInv (handleInteractiveShortcuts keys st) := by
  unfold handleInteractiveShortcuts
  exact lightInv_ambientStage _ _
    (lightInv_intensityStage _ _
      (lightInv_toggleStage _ _
        (lightInv_nudgeStage _ _ _
          (lightInv_selectStage _ _
            (lightInv_speedStage _ _
              (lightInv_camStage _ _ _ h))))))

/-- Witness for C3 at a concrete state with every key held. -/
theorem light_clamps_preserved_witness :
    LightInv (handleInteractiveShortcuts (fun _ => true) vmSample) :=
  light_clamps_preserved (fun _ => true) vmSample
    (by refine ⟨fun i => ?_, ⟨?_, ?_⟩, ?_⟩ <;> norm_num [vmSample])

/-! ## The speed multiplier (C4) -/
theorem applySpeedOp_range (op : SpeedOp) (sc : ℚ) (h1 : 1/4 ≤ sc) (h2 : sc ≤ 8) :
    1/4 ≤ applySpeedOp op sc ∧ applySpeedOp op sc ≤ 8 := by
  cases op with
  | halve =>
    exact ⟨le_max_left _ _, max_le (by norm_num) (by linarith)⟩
  | double =>
    exact ⟨le_min (by norm_num) (by linarith), min_le_left _ _⟩

theorem applySpeedOps_range (ops : List SpeedOp) :
    ∀ sc : ℚ, 1/4 ≤ sc → sc ≤ 8 →
      1/4 ≤ applySpeedOps ops sc ∧ applySpeedOps ops sc ≤ 8 := by
  induction ops with
  | nil => intro sc h1 h2; exact ⟨h1, h2⟩
  | cons op ops ih =>
    intro sc h1 h2
    have hstep := applySpeedOp_range op sc h1 h2
    simpa [applySpeedOps] using ih (applySpeedOp op sc) hstep.1 hstep.2

/-- C4: Starting from any multiplier in [0.25, 8.0], every sequence of
edge-triggered halve (Z) and double (X) operations keeps the multiplier in
[0.25, 8.0] after each operation; and from 1.0, one double followed by one
halve returns exactly to 1.0. -/
theorem speed_multiplier_clamped (sc : ℚ) (h1 : 1/4 ≤ sc) (h2 : sc ≤ 8) :
    (∀ ops : List SpeedOp,
      1/4 ≤ applySpeedOps ops sc ∧ applySpeedOps ops sc ≤ 8)
    ∧ applySpeedOp SpeedOp.halve (applySpeedOp SpeedOp.double 1) = 1 := by
  refine ⟨fun ops => applySpeedOps_range ops sc h1 h2, ?_⟩
  norm_num [applySpeedOp, min_def, max_def]

/-- Witness for C4 at multiplier 1 with the double-then-halve sequence. -/
theorem speed_multiplier_clamped_witness :
    (1/4 ≤ applySpeedOps [SpeedOp.double, SpeedOp.halve] 1
      ∧ applySpeedOps [SpeedOp.double, SpeedOp.halve] 1 ≤ 8)
    ∧ applySpeedOp SpeedOp.halve (applySpeedOp SpeedOp.double 1) = 1 :=
  ⟨(speed_multiplier_clamped 1 (by norm_num) (by norm_num)).1
      [SpeedOp.double, SpeedOp.halve],
    (speed_multiplier_clamped 1 (by norm_num) (by norm_num)).2⟩

/-! ## The zoom clamp (C7) -/
theorem scrollCallback_zoom_eq (x y : ℚ) (c : CamQ) :
    (scrollCallback x y c).Zoom = max 1 (min 90 (c.Zoom - y)) := by
  simp only [scrollCallback, max_def, min_def]
  split_ifs <;> linarith

theorem scrollCallback_zoom_range (x y : ℚ) (c : CamQ) :
    1 ≤ (scrollCallback x y c).Zoom ∧ (scrollCallback x y c).Zoom ≤ 90 := by
  rw [scrollCallback_zoom_eq]
  constructor
  · exact le_max_left _ _
  · exact max_le (by norm_num) (min_le_left _ _)

theorem applyScrolls_zoom_range (evs : List (ℚ × ℚ)) :
    ∀ c : CamQ, 1 ≤ c.Zoom → c.Zoom ≤ 90 →
      1 ≤ (applyScrolls evs c).Zoom ∧ (applyScrolls evs c).Zoom ≤ 90 := by
  induction evs with
  | nil => intro c h1 h2; exact ⟨h1, h2⟩
  | cons ev evs ih =>
    intro c h1 h2
    have hs := scrollCallback_zoom_range ev.1 ev.2 c
    simpa [applyScrolls] using ih (scrollCallback ev.1 ev.2 c) hs.1 hs.2

/-- C7: Over any sequence of scroll events the camera field-of-view stays
in [1, 90] after every event; each event subtracts the scroll y offset from
the field-of-view and clamps the result into [1, 90]. -/
theorem zoom_clamped (c : CamQ) (ev : ℚ × ℚ) (evs : List (ℚ × ℚ)) :
    (1 ≤ (applyScrolls (ev :: evs) c).Zoom
      ∧ (applyScrolls (ev :: evs) c).Zoom ≤ 90)
    ∧ (∀ (c' : CamQ) (x y : ℚ),
        (scrollCallback x y c').Zoom = max 1 (min 90 (c'.Zoom - y))) := by
  constructor
  · have hs := scrollCallback_zoom_range ev.1 ev.2 c
    simpa [applyScrolls] using
      applyScrolls_zoom_range evs (scrollCallback ev.1 ev.2 c) hs.1 hs.2
  · exact fun c' x y => scrollCallback_zoom_eq x y c'

/-- C8: With light index 2 selected by an edge-triggered press of key 3
(its latch clear so the press fires), a following frame in which T fires
flips light 2's enabled flag and leaves every other light's enabled flag
unchanged. -/
theorem select3_then_toggleT (st : VMState) (hk3 : st.keyOnce Key.k3 = false) :
    ((handleInteractiveShortcuts keysToggleT
        (handleInteractiveShortcuts keysSelect3 st)).pointLightOn 2
      = !(st.pointLightOn 2))
    ∧ (∀ j : ℕ, j ≠ 2 →
        (handleInteractiveShortcuts keysToggleT
          (handleInteractiveShortcuts keysSelect3 st)).pointLightOn j
        = st.pointLightOn j) := by
  have hmain : (handleInteractiveShortcuts keysToggleT
      (handleInteractiveShortcuts keysSelect3 st)).pointLightOn
      = updAt st.pointLightOn 2 (!(st.pointLightOn 2)) := by
    simp [handleInteractiveShortcuts, camStage, speedStage, selectStage,
      nudgeStage, toggleStage, intensityStage, ambientStage,
      keyPressedOnceMap, keyPressedOnce, updAt, frameSpeed,
      keysSelect3, keysToggleT, hk3]
  constructor
  · rw [hmain]; simp [updAt]
  · intro j hj; rw [hmain]; simp [updAt, hj]

/-- Witness for C8 at a concrete state (all latches clear, all lights on). -/
theorem select3_then_toggleT_witness :
    ((handleInteractiveShortcuts keysToggleT
        (handleInteractiveShortcuts keysSelect3 vmSample)).pointLightOn 2
      = !(vmSample.pointLightOn 2))
    ∧ ((handleInteractiveShortcuts keysToggleT
        (handleInteractiveShortcuts keysSelect3 vmSample)).pointLightOn 0
      = vmSample.pointLightOn 0)
    ∧ ((handleInteractiveShortcuts keysToggleT
        (handleInteractiveShortcuts keysSelect3 vmSample)).pointLightOn 1
      = vmSample.pointLightOn 1)
    ∧ ((handleInteractiveShortcuts keysToggleT
        (handleInteractiveShortcuts keysSelect3 vmSample)).pointLightOn 3
      = vmSample.pointLightOn 3) :=
  ⟨(select3_then_toggleT vmSample rfl).1,
    (select3_then_toggleT vmSample rfl).2 0 (by decide),
    (select3_then_toggleT vmSample rfl).2 1 (by decide),
    (select3_then_toggleT vmSample rfl).2 3 (by decide)⟩

/-- C2 (amended): Every held-key effect in HandleInteractiveShortcuts uses
the fixed hard-coded 0.016 s time step, not the per-frame recomputed
delta-time: each of W/S/A/D/Q/E translates the member camera along its
basis vector by `3 * m_moveSpeedScale * 0.016`, doubled while Left Shift is
held; each arrow/Page key nudges the selected light's coordinate by the
same magnitude; the held-key ambient nudges always use the fixed step
0.001, unaffected by the multiplier or Shift.  The separate
ProcessKeyboardEvents camera path does scale by the recomputed `gDeltaTime`
(but not by the multiplier or Shift). -/
theorem held_key_scaling (st : VMState) (sh : Bool) :
    ((handleInteractiveShortcuts (keysHold Key.w sh) st).camera.Position
      = Vec3.add st.camera.Position (Vec3.smul (heldStep st sh) st.camera.Front))
    ∧ ((handleInteractiveShortcuts (keysHold Key.s sh) st).camera.Position
      = Vec3.sub st.camera.Position (Vec3.smul (heldStep st sh) st.camera.Front))
    ∧ ((handleInteractiveShortcuts (keysHold Key.a sh) st).camera.Position
      = Vec3.sub st.camera.Position (Vec3.smul (heldStep st sh) st.camera.Right))
    ∧ ((handleInteractiveShortcuts (keysHold Key.d sh) st).camera.Position
      = Vec3.add st.camera.Position (Vec3.smul (heldStep st sh) st.camera.Right))
    ∧ ((handleInteractiveShortcuts (keysHold Key.q sh) st).camera.Position
      = Vec3.sub st.camera.Position (Vec3.smul (heldStep st sh) st.camera.Up))
    ∧ ((handleInteractiveShortcuts (keysHold Key.e sh) st).camera.Position
      = Vec3.add st.camera.Position (Vec3.smul (heldStep st sh) st.camera.Up))
    ∧ ((handleInteractiveShortcuts (keysHold Key.left sh) st).pointLightPos
      = updAt st.pointLightPos st.selectedPointLight
          { st.pointLightPos st.selectedPointLight with
            x := (st.pointLightPos st.selectedPointLight).x - heldStep st sh })
    ∧ ((handleInteractiveShortcuts (keysHold Key.right sh) st).pointLightPos
      = updAt st.pointLightPos st.selectedPointLight
          { st.pointLightPos st.selectedPointLight with
            x := (st.pointLightPos st.selectedPointLight).x + heldStep st sh })
    ∧ ((handleInteractiveShortcuts (keysHold Key.up sh) st).pointLightPos
      = updAt st.pointLightPos st.selectedPointLight
          { st.pointLightPos st.selectedPointLight with
            z := (st.pointLightPos st.selectedPointLight).z - heldStep st sh })
    ∧ ((handleInteractiveShortcuts (keysHold Key.down sh) st).pointLightPos
      = updAt st.pointLightPos st.selectedPointLight
          { st.pointLightPos st.selectedPointLight with
            z := (st.pointLightPos st.selectedPointLight).z + heldStep st sh })
    ∧ ((handleInteractiveShortcuts (keysHold Key.pageUp sh) st).pointLightPos
      = updAt st.pointLightPos st.selectedPointLight
          { st.pointLightPos st.selectedPointLight with
            y := (st.pointLightPos st.selectedPointLight).y + heldStep st sh })
    ∧ ((handleInteractiveShortcuts (keysHold Key.pageDown sh) st).pointLightPos
      = updAt st.pointLightPos st.selectedPointLight
          { st.pointLightPos st.selectedPointLight with
            y := (st.pointLightPos st.selectedPointLight).y - heldStep st sh })
    ∧ ((handleInteractiveShortcuts (keysHold Key.apostrophe sh) st).ambientBoost
      = min (3/10) (st.ambientBoost + 1/1000))
    ∧ ((handleInteractiveShortcuts (keysHold Key.semicolon sh) st).ambientBoost
      = max 0 (st.ambientBoost - 1/1000))
    ∧ (∀ g : Globals,
        (processKeyboardEvents (keysHold Key.w sh) g).camera.Position
        = Vec3.add g.camera.Position
            (Vec3.smul (g.camera.MovementSpeed * g.gDeltaTime) g.camera.Front)) := by
  refine ⟨?_, ?_, ?_, ?_, ?_, ?_, ?_, ?_, ?_, ?_, ?_, ?_, ?_, ?_, ?_⟩
  all_goals first
    | (intro g
       simp [processKeyboardEvents, keysHold, CamQ.ProcessKeyboard])
    | (cases sh <;>
        simp [handleInteractiveShortcuts, camStage, speedStage, selectStage,
          nudgeStage, toggleStage, intensityStage, ambientStage, frameSpeed,
          keyPressedOnceMap, keyPressedOnce, keysHold, heldStep,
          CamQ.MoveForward, CamQ.MoveBackward, CamQ.MoveLeft, CamQ.MoveRight,
          CamQ.MoveUp, CamQ.MoveDown, Vec3.add, Vec3.sub, Vec3.smul,
          Vec3.mk.injEq])

/-- Counterexample to C2 as stated: in a frame whose recomputed wall-clock
delta-time is 0.5 s, holding W at multiplier 1 without Shift moves the
member camera by 3·1·0.016 = 0.048 — not by the delta-time-scaled
3·1·0.5 = 1.5 the claim requires. -/
theorem held_key_ignores_delta_time :
    ((prepareSceneView true (1/2) (fun _ => false) globalsInit).globals.gDeltaTime
      = 1/2)
    ∧ ((handleInteractiveShortcuts (keysWShift false) vmSampleCam).camera.Position
        = ⟨0, 0, -(6/125)⟩)
    ∧ ¬((handleInteractiveShortcuts (keysWShift false) vmSampleCam).camera.Position
        = ⟨0, 0, -(3 * 1 * (1/2))⟩) := by
  refine ⟨?_, ?_, ?_⟩
  · simp [prepareSceneView, updateTiming, processKeyboardEvents, globalsInit]
  · simp [handleInteractiveShortcuts, camStage, speedStage, selectStage,
      nudgeStage, toggleStage, intensityStage, ambientStage, frameSpeed,
      keyPressedOnceMap, keyPressedOnce, keysWShift, CamQ.MoveForward,
      Vec3.add, Vec3.smul, vmSampleCam, vmSample, Vec3.mk.injEq]
    norm_num
  · simp [handleInteractiveShortcuts, camStage, speedStage, selectStage,
      nudgeStage, toggleStage, intensityStage, ambientStage, frameSpeed,
      keyPressedOnceMap, keyPressedOnce, keysWShift, CamQ.MoveForward,
      Vec3.add, Vec3.smul, vmSampleCam, vmSample, Vec3.mk.injEq]
    norm_num

/-- C5: Each frame the projection matrix is chosen by branching on the
two-state projection flag after input handling: Orthographic mode yields
the glm::ortho matrix with half-extent 5 scaled by the 1000/800 aspect
ratio and near/far 0.1/100, Perspective mode the glm::perspective matrix
with field-of-view the camera Zoom in degrees, the same aspect ratio and
near/far.  The perspective form carries the -1 perspective-divide entry at
column 2, row 3 (and 0 at [3][3]); the orthographic form has 0 there (and 1
at [3][3]).  The flag starts Perspective, and one P press from the initial
state yields the orthographic construction. -/
theorem projection_mode_branching (hasShaderManager : Bool) (now : ℚ)
    (keys : KeyState) (g : Globals) :
    ((prepareSceneView hasShaderManager now keys g).projection
      = (if (processKeyboardEvents keys (updateTiming now g)).bOrthographicProjection
         then glmOrtho (-5 * (1000 / 800)) (5 * (1000 / 800)) (-5) 5 (1/10) 100
         else glmPerspective
           (radiansR (((processKeyboardEvents keys (updateTiming now g)).camera.Zoom : ℝ)))
           (1000 / 800) (1/10) 100))
    ∧ (∀ fovy aspect zNear zFar : ℝ,
        glmPerspective fovy aspect zNear zFar 2 3 = -1
        ∧ glmPerspective fovy aspect zNear zFar 3 3 = 0)
    ∧ (∀ lv rv bv tv nv fv : ℝ,
        glmOrtho lv rv bv tv nv fv 2 3 = 0
        ∧ glmOrtho lv rv bv tv nv fv 3 3 = 1)
    ∧ globalsInit.bOrthographicProjection = false
    ∧ ((prepareSceneView hasShaderManager now keysPOnly globalsInit).projection
        = glmOrtho (-5 * (1000 / 800)) (5 * (1000 / 800)) (-5) 5 (1/10) 100) := by
  refine ⟨rfl, ?_, ?_, rfl, ?_⟩
  · intro fovy aspect zNear zFar
    constructor <;> simp [glmPerspective]
  · intro lv rv bv tv nv fv
    constructor <;> simp [glmOrtho]
  · simp [prepareSceneView, updateTiming, processKeyboardEvents, keysPOnly,
      globalsInit]

/-! ## The null-shader guard (C9) -/
/-- C9: With a null shader-manager pointer, the per-frame view preparation
performs no uniform uploads while the timing update, input processing and
matrix computation are identical to the non-null run; the scene-rendering
transform upload is skipped the same way (and does happen when the shader
manager is present). -/
theorem null_shader_skips_uploads (now : ℚ) (keys : KeyState) (g : Globals)
    (sc : Vec3 ℝ) (xr yr zr : ℝ) (pos : Vec3 ℝ) :
    ((prepareSceneView false now keys g).uploads = [])
    ∧ ((prepareSceneView false now keys g).globals
        = (prepareSceneView true now keys g).globals)
    ∧ ((prepareSceneView false now keys g).view
        = (prepareSceneView true now keys g).view)
    ∧ ((prepareSceneView false now keys g).projection
        = (prepareSceneView true now keys g).projection)
    ∧ (setTransformations false sc xr yr zr pos = [])
    ∧ (setTransformations true sc xr yr zr pos
        = [("model", UniformValue.mat4 (matMul (glmTranslate pos)
            (matMul (glmRotate (radiansR zr) ⟨0, 0, 1⟩)
              (matMul (glmRotate (radiansR yr) ⟨0, 1, 0⟩)
                (matMul (glmRotate (radiansR xr) ⟨1, 0, 0⟩) (glmScale sc))))))]) :=
  ⟨rfl, rfl, rfl, rfl, rfl, rfl⟩

/-! ## The first-mouse initialization (C10) -/
/-- C10: On the very first mouse-position callback the stored last-cursor
position is initialized to the event coordinates before the offsets are
computed, so both look offsets are exactly 0 and (for any in-clamp pitch)
the camera orientation is unchanged; every later callback applies offsets
equal to the cursor deltas with the y offset negated, and the stored last
position always becomes the event position. -/
theorem first_mouse_initialization (m : MouseGlobals) (x y : ℚ) :
    (m.firstMouse = true →
      ((mousePositionCallback x y m).rot = processMouseMovement m.rot 0 0
       ∧ (-89 ≤ m.rot.pitch → m.rot.pitch ≤ 89 →
           (mousePositionCallback x y m).rot = m.rot)))
    ∧ (m.firstMouse = false →
        (mousePositionCallback x y m).rot
          = processMouseMovement m.rot (x - m.lastX) (m.lastY - y))
    ∧ ((mousePositionCallback x y m).lastX = x
        ∧ (mousePositionCallback x y m).lastY = y
        ∧ (mousePositionCallback x y m).firstMouse = false) := by
  refine ⟨?_, ?_, rfl, rfl, rfl⟩
  · intro hf
    have hz : (mousePositionCallback x y m).rot = processMouseMovement m.rot 0 0 := by
      simp [mousePositionCallback, hf]
    refine ⟨hz, fun hlo hhi => ?_⟩
    rw [hz]
    simp only [processMouseMovement, mouseSensitivity, zero_mul, add_zero]
    rw [if_neg (show ¬(m.rot.pitch > 89) by linarith)]
    rw [if_neg (show ¬(m.rot.pitch < -89) by linarith)]
  · intro hf
    simp [mousePositionCallback, hf]

/-- Witness for C10: the first event leaves the orientation unchanged; a
later event applies the cursor deltas with y negated. -/
theorem first_mouse_initialization_witness :
    ((mousePositionCallback 510 390 mouseSampleFirst).rot = mouseSampleFirst.rot)
    ∧ ((mousePositionCallback 510 390 mouseSampleLater).rot
        = processMouseMovement mouseSampleLater.rot (510 - 500) (400 - 390)) :=
  ⟨((first_mouse_initialization mouseSampleFirst 510 390).1 rfl).2
      (by norm_num [mouseSampleFirst]) (by norm_num [mouseSampleFirst]),
    (first_mouse_initialization mouseSampleLater 510 390).2.1 rfl⟩

/-! ## Pitch clamp and the orthonormal basis (C6) -/
theorem processMouseMovement_pitch_range (r : CameraRot) (x y : ℚ) :
    -89 ≤ (processMouseMovement r x y).pitch
    ∧ (processMouseMovement r x y).pitch ≤ 89 := by
  simp only [processMouseMovement]
  split_ifs <;> constructor <;> linarith

theorem applyLookDeltas_pitch_range (evs : List (ℚ × ℚ)) :
    ∀ r : CameraRot, -89 ≤ r.pitch → r.pitch ≤ 89 →
      -89 ≤ (applyLookDeltas evs r).pitch ∧ (applyLookDeltas evs r).pitch ≤ 89 := by
  induction evs with
  | nil => intro r h1 h2; exact ⟨h1, h2⟩
  | cons e evs ih =>
    intro r h1 h2
    have hs := processMouseMovement_pitch_range r e.1 e.2
    simpa [applyLookDeltas] using ih (processMouseMovement r e.1 e.2) hs.1 hs.2

theorem cos_radiansR_pos (d : ℚ) (h1 : -89 ≤ d) (h2 : d ≤ 89) :
    0 < Real.cos (radiansR (d : ℝ)) := by
  have hpi := Real.pi_pos
  have hd1 : (-89 : ℝ) ≤ (d : ℝ) := by exact_mod_cast h1
  have hd2 : (d : ℝ) ≤ 89 := by exact_mod_cast h2
  apply Real.cos_pos_of_mem_Ioo
  constructor
  · have key : 0 < ((d : ℝ) + 90) * Real.pi := by
      apply mul_pos (by linarith) hpi
    simp only [radiansR]
    nlinarith
  · have key : 0 < (90 - (d : ℝ)) * Real.pi := by
      apply mul_pos (by linarith) hpi
    simp only [radiansR]
    nlinarith

theorem Vec3.dot_smul_smul (c : ℝ) (v : Vec3 ℝ) :
    Vec3.dot (Vec3.smul c v) (Vec3.smul c v) = c ^ 2 * Vec3.dot v v := by
  simp only [Vec3.dot, Vec3.smul]
  ring

theorem Vec3.normalize_of_dot_one (v : Vec3 ℝ) (hdot : Vec3.dot v v = 1) :
    Vec3.normalize v = v := by
  cases v with
  | mk vx vy vz =>
    simp only [Vec3.normalize, hdot, Real.sqrt_one, Vec3.smul]
    norm_num

theorem Vec3.normalize_eq_smul (v : Vec3 ℝ) (k : ℝ) (hk : 0 < k)
    (hdot : Vec3.dot v v = k ^ 2) :
    Vec3.normalize v = Vec3.smul (1 / k) v := by
  simp only [Vec3.normalize, hdot, Real.sqrt_sq hk.le]

theorem dot_front0 (r : CameraRot) : Vec3.dot (front0 r) (front0 r) = 1 := by
  simp only [front0, Vec3.dot]
  linear_combination
    (Real.cos (radiansR (r.pitch : ℝ))) ^ 2
        * Real.sin_sq_add_cos_sq (radiansR (r.yaw : ℝ))
      + Real.sin_sq_add_cos_sq (radiansR (r.pitch : ℝ))

theorem frontVec_eq (r : CameraRot) : frontVec r = front0 r := by
  unfold frontVec
  exact Vec3.normalize_of_dot_one (front0 r) (dot_front0 r)

theorem cross_front0_worldUp (r : CameraRot) :
    Vec3.cross (front0 r) worldUpVec
      = ⟨-(Real.sin (radiansR (r.yaw : ℝ)) * Real.cos (radiansR (r.pitch : ℝ))), 0,
          Real.cos (radiansR (r.yaw : ℝ)) * Real.cos (radiansR (r.pitch : ℝ))⟩ := by
  simp only [front0, worldUpVec, Vec3.cross, Vec3.mk.injEq]
  refine ⟨by ring, by ring, by ring⟩

theorem rightVec_eq (r : CameraRot) (h1 : -89 ≤ r.pitch) (h2 : r.pitch ≤ 89) :
    rightVec r
      = ⟨-Real.sin (radiansR (r.yaw : ℝ)), 0, Real.cos (radiansR (r.yaw : ℝ))⟩ := by
  have hC := cos_radiansR_pos r.pitch h1 h2
  unfold rightVec
  rw [frontVec_eq, cross_front0_worldUp]
  rw [Vec3.normalize_eq_smul _ (Real.cos (radiansR (r.pitch : ℝ))) hC
    (by simp only [Vec3.dot]
        linear_combination (Real.cos (radiansR (r.pitch : ℝ))) ^ 2
          * Real.sin_sq_add_cos_sq (radiansR (r.yaw : ℝ)))]
  simp only [Vec3.smul, Vec3.mk.injEq]
  refine ⟨by field_simp, by ring, by field_simp⟩

theorem cross_right_front (r : CameraRot) (h1 : -89 ≤ r.pitch) (h2 : r.pitch ≤ 89) :
    Vec3.cross (rightVec r) (frontVec r)
      = ⟨-(Real.cos (radiansR (r.yaw : ℝ)) * Real.sin (radiansR (r.pitch : ℝ))),
          Real.cos (radiansR (r.pitch : ℝ)),
          -(Real.sin (radiansR (r.yaw : ℝ)) * Real.sin (radiansR (r.pitch : ℝ)))⟩ := by
  rw [rightVec_eq r h1 h2, frontVec_eq]
  simp only [front0, Vec3.cross, Vec3.mk.injEq]
  refine ⟨by ring, ?_, by ring⟩
  linear_combination (Real.cos (radiansR (r.pitch : ℝ)))
    * Real.sin_sq_add_cos_sq (radiansR (r.yaw : ℝ))

theorem upVec_eq (r : CameraRot) (h1 : -89 ≤ r.pitch) (h2 : r.pitch ≤ 89) :
    upVec r
      = ⟨-(Real.cos (radiansR (r.yaw : ℝ)) * Real.sin (radiansR (r.pitch : ℝ))),
          Real.cos (radiansR (r.pitch : ℝ)),
          -(Real.sin (radiansR (r.yaw : ℝ)) * Real.sin (radiansR (r.pitch : ℝ)))⟩ := by
  unfold upVec
  rw [cross_right_front r h1 h2]
  apply Vec3.normalize_of_dot_one
  simp only [Vec3.dot]
  linear_combination (Real.sin (radiansR (r.pitch : ℝ))) ^ 2
      * Real.sin_sq_add_cos_sq (radiansR (r.yaw : ℝ))
    + Real.sin_sq_add_cos_sq (radiansR (r.pitch : ℝ))

theorem basis_orthonormal (r : CameraRot) (h1 : -89 ≤ r.pitch) (h2 : r.pitch ≤ 89) :
    OrthonormalBasis (frontVec r) (rightVec r) (upVec r) := by
  rw [frontVec_eq, rightVec_eq r h1 h2, upVec_eq r h1 h2]
  refine ⟨dot_front0 r, ?_, ?_, ?_, ?_, ?_⟩
  · simp only [Vec3.dot]
    linear_combination Real.sin_sq_add_cos_sq (radiansR (r.yaw : ℝ))
  · simp only [Vec3.dot]
    linear_combination (Real.sin (radiansR (r.pitch : ℝ))) ^ 2
        * Real.sin_sq_add_cos_sq (radiansR (r.yaw : ℝ))
      + Real.sin_sq_add_cos_sq (radiansR (r.pitch : ℝ))
  · simp only [front0, Vec3.dot]
    ring
  · simp only [front0, Vec3.dot]
    linear_combination
      (-(Real.cos (radiansR (r.pitch : ℝ)) * Real.sin (radiansR (r.pitch : ℝ))))
        * Real.sin_sq_add_cos_sq (radiansR (r.yaw : ℝ))
  · simp only [Vec3.dot]
    ring

/-- C6 (amended): After each look-delta event of any sequence, the pitch
lies in the closed interval [-89°, 89°], and the front/right/up basis
recomputed from yaw/pitch is a set of mutually orthogonal unit vectors. -/
theorem look_deltas_keep_orthonormal_basis (r0 : CameraRot) (e : ℚ × ℚ)
    (evs : List (ℚ × ℚ)) :
    (-89 ≤ (applyLookDeltas (e :: evs) r0).pitch
      ∧ (applyLookDeltas (e :: evs) r0).pitch ≤ 89)
    ∧ OrthonormalBasis (frontVec (applyLookDeltas (e :: evs) r0))
        (rightVec (applyLookDeltas (e :: evs) r0))
        (upVec (applyLookDeltas (e :: evs) r0)) := by
  have hs := processMouseMovement_pitch_range r0 e.1 e.2
  have hp : -89 ≤ (applyLookDeltas (e :: evs) r0).pitch
      ∧ (applyLookDeltas (e :: evs) r0).pitch ≤ 89 := by
    simpa [applyLookDeltas] using
      applyLookDeltas_pitch_range evs (processMouseMovement r0 e.1 e.2) hs.1 hs.2
  exact ⟨hp, basis_orthonormal _ hp.1 hp.2⟩

/-- Counterexample to C6 as stated: the clamp is inclusive, so a look
delta of +890 cursor units (sensitivity 0.1) from pitch 0 lands exactly on
89°, which is not within the open interval (-89°, 89°). -/
theorem pitch_reaches_boundary :
    ((applyLookDeltas [(0, 890)] { yaw := -90, pitch := 0 }).pitch = 89)
    ∧ ¬((applyLookDeltas [(0, 890)] { yaw := -90, pitch := 0 }).pitch < 89) := by
  constructor <;>
    norm_num [applyLookDeltas, processMouseMovement, mouseSensitivity]

end GraphicsProject
